import Mathlib

/-!
# Verification of the KEParser streaming record parser

A shallow embedding of `src/keparser/parser.py` (class `KEParser` and the
helper class `FieldList`), together with theorems settling the specification
claims about it.

Modelling conventions:
* Python byte strings handled by `encode_value` are modelled as `List Nat`
  with every entry `< 256`; Unicode code points are also `List Nat`.
* Decoded text lines handled by `next` are modelled as Lean `String`s; at
  that level `encode_value` is the identity (the byte-level behaviour is
  modelled and verified separately).
* Python exceptions become an explicit `PyError` value threaded through
  `Except`; `StopIteration` is the `Except.ok none` result of `runLines`.
* Python `dict` (the in-progress record `item`) is modelled as an
  insertion-ordered association list with in-place update.
* Python `float` values are carried symbolically as their (stripped) literal
  text: no claim inspects a float's numeric magnitude, only whether the
  literal parses.
-/

/-! ## Python string primitives used by the parser -/

/-- The whitespace characters recognised by Python's `str.strip()` /
`int()` / `float()` argument stripping. -/
def isPySpace (c : Char) : Bool :=
  c = ' ' ∨ c = '\t' ∨ c = '\n' ∨ c = '\r' ∨ c = '\x0b' ∨ c = '\x0c'

/-- Python `str.strip()` (no argument): remove leading and trailing
whitespace. -/
def pyStrip (s : String) : String :=
  (((s.toList.dropWhile isPySpace).reverse.dropWhile isPySpace).reverse).asString

/-- Python `line.rstrip(os.linesep)` with `os.linesep = '\n'` (the parser
runs on a Unix platform): drop every trailing newline character. -/
def pyRstripNl (s : String) : String :=
  ((s.toList.reverse.dropWhile (fun c => c = '\n')).reverse).asString

/-- Python `str.split(sep)` for a single-character separator and no
`maxsplit`, on the underlying character list.  Splits at every occurrence,
keeping empty parts: `"".split('-') = ['']`, `"-".split('-') = ['', '']`. -/
def splitCharList (sep : Char) : List Char → List (List Char)
  | [] => [[]]
  | c :: rest =>
    let r := splitCharList sep rest
    if c = sep then [] :: r
    else
      match r with
      | [] => [[c]]
      | h :: t => (c :: h) :: t

/-- Python `s.split(sep)` (single-character separator, no limit). -/
def pySplit (s : String) (sep : Char) : List String :=
  (splitCharList sep s.toList).map List.asString

/-- Python `line.split('=', 1)` together with the 2-tuple unpacking
`field, value = ...`: `some (field, value)` splits at the *first* `=`;
`none` is the `ValueError` raised by the unpacking when the line contains
no `=`. -/
def splitEq (line : String) : Option (String × String) :=
  if line.toList.any (fun c => c = '=') then
    some ((line.toList.takeWhile (fun c => c ≠ '=')).asString,
          ((line.toList.dropWhile (fun c => c ≠ '=')).drop 1).asString)
  else
    none

/-- Python `re.sub('\d+$', '', field)`: strip a trailing run of ASCII digits. -/
def stripTrailingDigits (s : String) : String :=
  ((s.toList.reverse.dropWhile Char.isDigit).reverse).asString

/-- Decimal value of a digit list (used once all characters are known to be
digits). -/
def digitsToNat (cs : List Char) : Nat :=
  cs.foldl (fun acc c => acc * 10 + (c.toNat - 48)) 0

/-- A non-empty all-digit character run, or `none`. -/
def natOfDigits (cs : List Char) : Option Nat :=
  if cs ≠ [] ∧ cs.all Char.isDigit then some (digitsToNat cs) else none

/-- Python 2 `int(s)` on a string: strip whitespace, optional sign, then a
non-empty run of decimal digits; `none` is the `ValueError`. -/
def pyInt (s : String) : Option Int :=
  match (pyStrip s).toList with
  | '+' :: rest => (natOfDigits rest).map Int.ofNat
  | '-' :: rest => (natOfDigits rest).map (fun n => -(n : Int))
  | cs => (natOfDigits cs).map Int.ofNat

/-- Exponent suffix of a Python float literal: nothing, or `e`/`E`,
optional sign, one or more digits. -/
def floatExpTail (cs : List Char) : Bool :=
  let body := match cs with
    | '+' :: r => r
    | '-' :: r => r
    | r => r
  body ≠ [] ∧ body.all Char.isDigit

def isFloatExp : List Char → Bool
  | [] => true
  | 'e' :: rest => floatExpTail rest
  | 'E' :: rest => floatExpTail rest
  | _ => false

/-- Mantissa-plus-exponent body of a Python float literal:
`digits [. digits] [exp]` or `. digits [exp]`. -/
def isFloatMain (cs : List Char) : Bool :=
  let ip := cs.takeWhile Char.isDigit
  let r1 := cs.dropWhile Char.isDigit
  match r1 with
  | '.' :: rest =>
    let fp := rest.takeWhile Char.isDigit
    let r2 := rest.dropWhile Char.isDigit
    (ip ≠ [] ∨ fp ≠ []) ∧ isFloatExp r2
  | _ => ip ≠ [] ∧ isFloatExp r1

/-- Acceptance test of Python 2 `float(s)` after whitespace stripping:
optionally signed mantissa/exponent literal, or (case-insensitively)
`inf`, `infinity`, `nan`. -/
def isPyFloatLit (t : String) : Bool :=
  let body := match t.toList with
    | '+' :: r => r
    | '-' :: r => r
    | r => r
  let low := body.map Char.toLower
  if low = "inf".toList ∨ low = "infinity".toList ∨ low = "nan".toList then true
  else isFloatMain body

/-- Python 2 `float(s)` modelled symbolically: `some` carries the stripped
literal when the parse succeeds, `none` is the `ValueError`.  (No claim
consults the numeric magnitude of a float, only parse success.) -/
def pyFloatParse (s : String) : Option String :=
  let t := pyStrip s
  if isPyFloatLit t then some t else none

/-! ## Basic lemmas about the string primitives -/

theorem splitCharList_ne_nil (sep : Char) (l : List Char) :
    splitCharList sep l ≠ [] := by
  induction l with
  | nil => simp [splitCharList]
  | cons c rest ih =>
    simp only [splitCharList]
    split
    · simp
    · match h : splitCharList sep rest with
      | [] => simp
      | h' :: t => simp

/-- Each split part together with the separators accounts for the whole
input: the part lengths sum to `l.length + 1 - #parts`. -/
theorem splitCharList_length_sum (sep : Char) (l : List Char) :
    ((splitCharList sep l).map List.length).sum + (splitCharList sep l).length
      = l.length + 1 := by
  induction l with
  | nil => simp [splitCharList]
  | cons c rest ih =>
    simp only [splitCharList]
    split
    · simp only [List.map_cons, List.sum_cons, List.length_cons, List.length_nil]
      omega
    · match h : splitCharList sep rest with
      | [] => exact absurd h (splitCharList_ne_nil sep rest)
      | h' :: t =>
        rw [h] at ih
        simp only [List.map_cons, List.sum_cons, List.length_cons] at ih ⊢
        omega

/-- No split part contains the separator. -/
theorem splitCharList_not_mem (sep : Char) (l : List Char) :
    ∀ part ∈ splitCharList sep l, sep ∉ part := by
  induction l with
  | nil => simp [splitCharList]
  | cons c rest ih =>
    simp only [splitCharList]
    split
    · next hc =>
      intro part hp
      rcases hp with _ | hp
      · simp
      · exact ih part (by assumption)
    · next hc =>
      match h : splitCharList sep rest with
      | [] => exact absurd h (splitCharList_ne_nil sep rest)
      | h' :: t =>
        intro part hp
        rcases hp with _ | hp
        · have hh : h' ∈ splitCharList sep rest := by rw [h]; exact List.mem_cons_self _ _
          have := ih h' hh
          simp only [List.mem_cons]
          rintro (rfl | hm)
          · exact hc rfl
          · exact this hm
        · exact ih part (by rw [h]; exact List.mem_cons_of_mem _ (by assumption))

theorem asString_toList (l : List Char) : (List.asString l).toList = l := rfl

theorem asString_length (l : List Char) : (List.asString l).length = l.length := rfl

theorem string_length_eq_toList (s : String) : s.length = s.toList.length := rfl

theorem pyStrip_length_le (s : String) : (pyStrip s).length ≤ s.length := by
  rw [pyStrip, asString_length, string_length_eq_toList, List.length_reverse]
  calc ((s.toList.dropWhile isPySpace).reverse.dropWhile isPySpace).length
      ≤ (s.toList.dropWhile isPySpace).reverse.length :=
        (List.dropWhile_sublist _).length_le
    _ = (s.toList.dropWhile isPySpace).length := List.length_reverse _
    _ ≤ s.toList.length := (List.dropWhile_sublist _).length_le

/-- The characters of a stripped string are among the original ones. -/
theorem pyStrip_sublist (s : String) : ∀ c ∈ (pyStrip s).toList, c ∈ s.toList := by
  intro c hc
  rw [pyStrip, asString_toList] at hc
  have h1 := List.mem_reverse.mp hc
  have h2 := List.Sublist.mem h1 (List.dropWhile_sublist _)
  have h3 := List.mem_reverse.mp h2
  exact List.Sublist.mem h3 (List.dropWhile_sublist _)

theorem asString_of_toList (s : String) : s.toList.asString = s := rfl

/-- A two-part split accounts for the separator: the part lengths sum to
one less than the input length. -/
theorem pySplit_two_length {s p q : String} {sep : Char}
    (h : pySplit s sep = [p, q]) : p.length + q.length + 1 = s.length := by
  have hs := splitCharList_length_sum sep s.toList
  rw [pySplit] at h
  match hsp : splitCharList sep s.toList with
  | [] => rw [hsp] at h; simp at h
  | [x] => rw [hsp] at h; simp at h
  | [x, y] =>
    rw [hsp] at h
    simp only [List.map_cons, List.map_nil, List.cons.injEq, and_true] at h
    rw [hsp] at hs
    simp only [List.map_cons, List.map_nil, List.sum_cons, List.sum_nil,
      List.length_cons, List.length_nil] at hs
    obtain ⟨h1, h2⟩ := h
    rw [← h1, ← h2, asString_length, asString_length,
      string_length_eq_toList]
    omega
  | x :: y :: z :: t => rw [hsp] at h; simp at h

theorem map_pyStrip_two {l : List String} {a b : String}
    (h : l.map pyStrip = [a, b]) :
    ∃ p q, l = [p, q] ∧ a = pyStrip p ∧ b = pyStrip q := by
  match l with
  | [] => simp at h
  | [p] => simp at h
  | [p, q] =>
    simp only [List.map_cons, List.map_nil, List.cons.injEq, and_true] at h
    exact ⟨p, q, rfl, h.1.symm, h.2.symm⟩
  | p :: q :: r :: t => simp at h

/-- If the separator does not occur, `split` returns the whole input as the
single part. -/
theorem splitCharList_of_not_mem {sep : Char} {l : List Char} (h : sep ∉ l) :
    splitCharList sep l = [l] := by
  induction l with
  | nil => rfl
  | cons c rest ih =>
    simp only [List.mem_cons, not_or] at h
    simp only [splitCharList]
    rw [if_neg (by simpa using fun hc => h.1 hc.symm), ih h.2]

theorem pySplit_of_not_mem {sep : Char} {s : String} (h : sep ∉ s.toList) :
    pySplit s sep = [s] := by
  rw [pySplit, splitCharList_of_not_mem h]
  rfl

/-- Embeds `KEParser.to_type` (parser.py lines 342-361): try the native parse
`func(value)`; on `ValueError`, split on hyphens and strip each part, and
when exactly two identical parts result, recursively coerce the first;
otherwise the value degrades to `none` (Python `None`) with a logged
diagnostic.  `func` abstracts `int` / `float`, returning `none` in place
of raising `ValueError`. -/
def to_type {α : Type} (func : String → Option α) (value : String) : Option α :=
  match func value with
  | some v => some v
  | none =>
    match h : (pySplit value '-').map pyStrip with
    | [a, b] => if a = b then to_type func a else none
    | _ => none
termination_by value.length
decreasing_by
  obtain ⟨p, q, hl, ha, hb⟩ := map_pyStrip_two h
  have h2 := pySplit_two_length hl
  have h3 := pyStrip_length_le p
  rw [ha]
  omega

/-- Embeds `KEParser.to_int` applied to the value argument alone (the `irn` and
`line` arguments only feed the log message). -/
def to_int (value : String) : Option Int := to_type pyInt value

/-- Embeds `KEParser.to_float` applied to the value argument alone. -/
def to_float (value : String) : Option String := to_type pyFloatParse value

/-- One-level unfolding of `to_type`: the recursive call replaced by a
plain native parse of the first split part. -/
def toTypeFlat {α : Type} (func : String → Option α) (value : String) :
    Option α :=
  match func value with
  | some v => some v
  | none =>
    match (pySplit value '-').map pyStrip with
    | [a, b] => if a = b then func a else none
    | _ => none

/-! ## Byte-level line decoding (`KEParser.encode_value`, lines 136-152)

Python 2 byte strings are `List Nat` with entries `< 256`; Unicode strings
are `List Nat` of code points. -/

/-- Python `value.decode('latin-1')`: each byte becomes the code point of the same
number (Latin-1 covers all 256 bytes, so this never fails). -/
def latin1Decode (bytes : List Nat) : List Nat := bytes

/-- One hexadecimal digit as an ASCII code (lower case, as Python emits). -/
def hexDigitAscii (n : Nat) : Nat := if n < 10 then 48 + n else 87 + n

/-- Python `unicode.encode('raw_unicode_escape')`: code points below 256 pass
through as raw bytes; larger ones become ASCII `\uXXXX` / `\UXXXXXXXX`
escape sequences. -/
def rawUnicodeEscape (cps : List Nat) : List Nat :=
  cps.flatMap (fun c =>
    if c < 256 then [c]
    else if c < 65536 then
      [92, 117, hexDigitAscii (c / 4096 % 16), hexDigitAscii (c / 256 % 16),
       hexDigitAscii (c / 16 % 16), hexDigitAscii (c % 16)]
    else
      [92, 85, hexDigitAscii (c / 268435456 % 16), hexDigitAscii (c / 16777216 % 16),
       hexDigitAscii (c / 1048576 % 16), hexDigitAscii (c / 65536 % 16),
       hexDigitAscii (c / 4096 % 16), hexDigitAscii (c / 256 % 16),
       hexDigitAscii (c / 16 % 16), hexDigitAscii (c % 16)])

/-- Python `unicode.encode('utf-8')`, per code point. -/
def utf8EncodeChar (c : Nat) : List Nat :=
  if c < 128 then [c]
  else if c < 2048 then [192 + c / 64, 128 + c % 64]
  else if c < 65536 then [224 + c / 4096, 128 + c / 64 % 64, 128 + c % 64]
  else [240 + c / 262144, 128 + c / 4096 % 64, 128 + c / 64 % 64, 128 + c % 64]

def utf8Encode (cps : List Nat) : List Nat := cps.flatMap utf8EncodeChar

/-- A UTF-8 continuation byte. -/
def utf8Cont (b : Nat) : Bool := 128 ≤ b ∧ b < 192

mutual

/-- Python 2 `bytes.decode('utf-8')`: `none` is the
`UnicodeDecodeError`.  (Python 2's UTF-8 codec accepts surrogate code
points, and rejects overlong encodings and lead bytes above `0xF4`.) -/
def decodeUtf8 : List Nat → Option (List Nat)
  | [] => some []
  | b :: rest =>
    if b < 128 then (decodeUtf8 rest).map (fun l => b :: l)
    else if b < 194 then none  -- stray continuation byte, or overlong C0/C1 lead
    else if b < 224 then decodeUtf8Two b rest
    else if b < 240 then decodeUtf8Three b rest
    else if b < 245 then decodeUtf8Four b rest
    else none
termination_by l => 2 * l.length

/-- Continuation of a two-byte sequence. -/
def decodeUtf8Two (b : Nat) : List Nat → Option (List Nat)
  | b2 :: rest2 =>
    if utf8Cont b2 then
      (decodeUtf8 rest2).map (fun l => ((b - 192) * 64 + (b2 - 128)) :: l)
    else none
  | [] => none
termination_by l => 2 * l.length + 1

/-- Continuation of a three-byte sequence (with the overlong check for a
`0xE0` lead). -/
def decodeUtf8Three (b : Nat) : List Nat → Option (List Nat)
  | b2 :: b3 :: rest3 =>
    if utf8Cont b2 ∧ utf8Cont b3 ∧ (b = 224 → 160 ≤ b2) then
      (decodeUtf8 rest3).map
        (fun l => ((b - 224) * 4096 + (b2 - 128) * 64 + (b3 - 128)) :: l)
    else none
  | _ => none
termination_by l => 2 * l.length + 1

/-- Continuation of a four-byte sequence (with the overlong and
out-of-range checks for `0xF0` / `0xF4` leads). -/
def decodeUtf8Four (b : Nat) : List Nat → Option (List Nat)
  | b2 :: b3 :: b4 :: rest4 =>
    if utf8Cont b2 ∧ utf8Cont b3 ∧ utf8Cont b4
        ∧ (b = 240 → 144 ≤ b2) ∧ (b = 244 → b2 < 144) then
      (decodeUtf8 rest4).map
        (fun l => ((b - 240) * 262144 + (b2 - 128) * 4096
                    + (b3 - 128) * 64 + (b4 - 128)) :: l)
    else none
  | _ => none
termination_by l => 2 * l.length + 1

end

/-- Embeds `KEParser.encode_value` (lines 136-152) at byte level: decode the raw
line as Latin-1 and re-encode with `raw_unicode_escape`, keeping the result
when it verifies as UTF-8; otherwise fall back to re-encoding the Latin-1
text as UTF-8 and verify again.  `none` is the case in which both
verifications fail (a propagated `UnicodeDecodeError`).  (The unused `item`
argument of the Python method is omitted.) -/
def encode_value (value : List Nat) : Option (List Nat) :=
  let e1 := rawUnicodeEscape (latin1Decode value)
  if (decodeUtf8 e1).isSome then some e1
  else
    let e2 := utf8Encode (latin1Decode value)
    if (decodeUtf8 e2).isSome then some e2
    else none

/-! ## The parser data model -/

/-- A value held in a record: Python `None`, `bool`, `int`, `float`
(symbolic literal), `str`, `FieldList`, or the `datetime` synthesised for
`ISODateInserted`. -/
inductive Value where
  | null : Value
  | bool (b : Bool) : Value
  | int (n : Int) : Value
  | float (lit : String) : Value
  | str (s : String) : Value
  | list (elems : List Value) : Value
  | datetime (y mo d h mi s : Nat) : Value

/-- The Python exceptions the parser can let escape. -/
inductive PyError where
  | keyError (key : String) : PyError
  | valueError : PyError
  | typeError : PyError
  | indexError : PyError
deriving DecidableEq

/-- The in-progress record: an insertion-ordered association list (Python
dict keyed by field name; iteration order is modelled as insertion order). -/
abbrev Item := List (String × Value)

/-- Python `item[k] = v` on a dict: replace in place when the key exists, else
append. -/
def setItem (item : Item) (k : String) (v : Value) : Item :=
  if (List.any item (fun p => p.1 = k)) then
    List.map (fun p => if p.1 = k then (k, v) else p) item
  else
    item ++ [(k, v)]

/-- Python `item[k]` / `k in item` on a dict. -/
def lookupItem (item : Item) (k : String) : Option Value :=
  match item with
  | [] => none
  | p :: rest => if p.1 = k then some p.2 else lookupItem rest k

/-- Embeds `FieldList.__setitem__` (parser.py lines 30-41): growing assignment by
index.  When `index` is at least the current length the list is first
padded with `None`; otherwise Python's plain `list.__setitem__` applies,
with its negative-index wrap-around and `IndexError`. -/
def fieldListSetitem (l : List Value) (index : Int) (v : Value) :
    Except PyError (List Value) :=
  let size := l.length
  if (size : Int) ≤ index then
    Except.ok ((l ++ List.replicate (index.toNat + 1 - size) Value.null).set
      index.toNat v)
  else if 0 ≤ index then
    Except.ok (l.set index.toNat v)
  else if 0 ≤ (size : Int) + index then
    Except.ok (l.set ((size : Int) + index).toNat v)
  else
    Except.error PyError.indexError

/-! ## Schema, field typing and value coercion -/

/-- The schema's column table, `schema['columns']`: field name ↦ `DataType`
(the only descriptor entry `next` consults). -/
abbrev Schema := List (String × String)

/-- Embeds `KEParser.field_type_override` (parser.py lines 70-81). -/
def field_type_override : List (String × String) :=
  [("DarDayCollected", "Text"),
   ("DarMonthCollected", "Text"),
   ("DarYearCollected", "Text"),
   ("DarObservedWeight", "Text"),
   ("DarTimeOfDay", "Text"),
   ("DarStartTimeOfDay", "Text"),
   ("DarEndTimeOfDay", "Text"),
   ("MulMultiMediaRef", "Text")]

def lookupStr (l : List (String × String)) (k : String) : Option String :=
  match l with
  | [] => none
  | p :: rest => if p.1 = k then some p.2 else lookupStr rest k

/-- Embeds `KEParser.get_field_type` (lines 154-168): override table first, then
the schema's column definition; `none` is the raised `KEParserException`. -/
def get_field_type (schema : Schema) (field : String) : Option String :=
  match lookupStr field_type_override field with
  | some t => some t
  | none => lookupStr schema field

/-- The text-typed tail of the coercion in `next` (lines 260-270): map
`yes`/`Yes` to `True`, `no`/`No` to `False`, the literal `0` to `None`,
and pass everything else through. -/
def coerceText (value : String) : Value :=
  if value = "yes" ∨ value = "Yes" then Value.bool true
  else if value = "no" ∨ value = "No" then Value.bool false
  else if value = "0" then Value.null
  else Value.str value

/-- The value-coercion block of `next` (lines 250-270): empty string to
`None`; `Integer`/`Float` through `to_int`/`to_float` (whose `item['irn']`
argument raises `KeyError` when `irn` has not been stored yet); anything
else through the yes/no/0 normalization. -/
def convertValue (item : Item) (fieldType : String) (value : String) :
    Except PyError Value :=
  if value.length = 0 then Except.ok Value.null
  else if fieldType = "Integer" then
    match lookupItem item "irn" with
    | none => Except.error (PyError.keyError "irn")
    | some _ =>
      Except.ok (match to_int value with
        | some n => Value.int n
        | none => Value.null)
  else if fieldType = "Float" then
    match lookupItem item "irn" with
    | none => Except.error (PyError.keyError "irn")
    | some _ =>
      Except.ok (match to_float value with
        | some lit => Value.float lit
        | none => Value.null)
  else
    Except.ok (coerceText value)

/-! ## Flattening (lines 303-334) -/

/-- Flatten-mode constants (lines 21-23). -/
def FLATTEN_NONE : Nat := 0

def FLATTEN_SINGLE : Nat := 1

def FLATTEN_ALL : Nat := 2

/-- Embeds `KEParser.flatten_map` (lines 319-334): stringify a list entry ready
for `'; '.join`: `None` becomes the empty string, non-strings are passed
through `str()`.  (`str()` of a float literal is carried symbolically; a
nested list or datetime never occurs inside a `FieldList`, so their
stringification is irrelevant and rendered as the empty string.) -/
def flatten_map (v : Value) : String :=
  match v with
  | Value.null => ""
  | Value.str s => s
  | Value.bool b => if b then "True" else "False"
  | Value.int n => toString n
  | Value.float lit => lit
  | Value.list _ => ""
  | Value.datetime _ _ _ _ _ _ => ""

/-- Embeds `KEParser.flatten` (lines 303-317): collapse every singleton list to
its sole element; in `FLATTEN_ALL` mode concatenate longer lists with
`"; "`. -/
def flatten (mode : Nat) (item : Item) : Item :=
  item.map (fun p =>
    (p.1, match p.2 with
      | Value.list l =>
        match l with
        | [x] => x
        | _ => if mode = FLATTEN_ALL then
                 Value.str (String.intercalate "; " (l.map flatten_map))
               else Value.list l
      | v => v))

/-! ## `datetime.strptime` for the two fixed formats of line 194-195 -/

/-- Greedily take one or two leading decimal digits, as `strptime`'s
`%m`/`%d`/`%H`/`%M`/`%S` patterns do. -/
def takeDigits2 : List Char → Option (Nat × List Char)
  | c1 :: rest =>
    if c1.isDigit then
      match rest with
      | c2 :: rest2 =>
        if c2.isDigit then some ((c1.toNat - 48) * 10 + (c2.toNat - 48), rest2)
        else some (c1.toNat - 48, rest)
      | [] => some (c1.toNat - 48, [])
    else none
  | [] => none

def isLeapYear (y : Nat) : Bool := y % 4 = 0 ∧ (y % 100 ≠ 0 ∨ y % 400 = 0)

def daysInMonth (y m : Nat) : Nat :=
  if m = 2 then (if isLeapYear y then 29 else 28)
  else if m = 4 ∨ m = 6 ∨ m = 9 ∨ m = 11 then 30
  else 31

/-- Python `datetime.strptime(s, "%Y-%m-%d")`: a four-digit year, then month and
day validated against the calendar; the whole string must be consumed.
`none` is the raised `ValueError`. -/
def strptimeDate (s : String) : Option (Nat × Nat × Nat) :=
  match s.toList with
  | y1 :: y2 :: y3 :: y4 :: '-' :: rest =>
    if y1.isDigit ∧ y2.isDigit ∧ y3.isDigit ∧ y4.isDigit then
      let y := digitsToNat [y1, y2, y3, y4]
      match takeDigits2 rest with
      | some (m, r1) =>
        match r1 with
        | '-' :: r2 =>
          match takeDigits2 r2 with
          | some (d, r3) =>
            if r3 = [] ∧ 1 ≤ y ∧ 1 ≤ m ∧ m ≤ 12 ∧ 1 ≤ d ∧ d ≤ daysInMonth y m
            then some (y, m, d)
            else none
          | none => none
        | _ => none
      | none => none
    else none
  | _ => none

/-- Python `datetime.strptime(s, '%H:%M:%S.000')`: hour, minute, second followed
by the literal text `.000`; `none` is the raised `ValueError`. -/
def strptimeTime (s : String) : Option (Nat × Nat × Nat) :=
  match takeDigits2 s.toList with
  | some (h, r1) =>
    match r1 with
    | ':' :: r2 =>
      match takeDigits2 r2 with
      | some (mi, r3) =>
        match r3 with
        | ':' :: r4 =>
          match takeDigits2 r4 with
          | some (sec, r5) =>
            if r5 = ['.', '0', '0', '0'] ∧ h ≤ 23 ∧ mi ≤ 59 ∧ sec ≤ 59
            then some (h, mi, sec)
            else none
          | none => none
        | _ => none
      | none => none
    | _ => none
  | none => none

/-! ## The record assembler: `KEParser.next` (lines 170-301) -/

/-- Result of consuming one line inside the `for` loop of `next`. -/
inductive StepResult where
  | more (item : Item) : StepResult
  | emit (record : Item) : StepResult

/-- The `except ValueError` handler of `next` (lines 283-298): a line
without `=` is only logged (`continue`); with `=` the handler prints
`item['irn']` — a `KeyError` when `irn` is absent — and re-raises the
`ValueError`. -/
def handleValueError (item : Item) (line : String) : Except PyError StepResult :=
  if ¬ (line.toList.any (fun c => c = '=')) then
    Except.ok (StepResult.more item)
  else
    match lookupItem item "irn" with
    | none => Except.error (PyError.keyError "irn")
    | some _ => Except.error PyError.valueError

/-- The `###` terminator branch of `next` (lines 187-197): flatten unless
the mode is `FLATTEN_NONE`, then synthesise `ISODateInserted` from
`AdmDateModified` and `AdmTimeModified` (a `KeyError` when either is
absent, a `ValueError` when either fails `strptime`, a `TypeError` when
either is not a string), and emit the record. -/
def emitRecord (mode : Nat) (item : Item) : Except PyError StepResult :=
  let item1 := if mode ≠ FLATTEN_NONE then flatten mode item else item
  match lookupItem item1 "AdmDateModified" with
  | none => Except.error (PyError.keyError "AdmDateModified")
  | some (Value.str ds) =>
    match strptimeDate ds with
    | none => Except.error PyError.valueError
    | some (y, mo, d) =>
      match lookupItem item1 "AdmTimeModified" with
      | none => Except.error (PyError.keyError "AdmTimeModified")
      | some (Value.str ts) =>
        match strptimeTime ts with
        | none => Except.error PyError.valueError
        | some (h, mi, sec) =>
          Except.ok (StepResult.emit
            (setItem item1 "ISODateInserted" (Value.datetime y mo d h mi sec)))
      | some _ => Except.error PyError.typeError
  | some _ => Except.error PyError.typeError

/-- The tail of the field branch of `next` (lines 231-278), after the
index suffix has been handled: canonicalise the field name against the
schema (trailing-digit stripping, `_tab` fallback), resolve the field
type (skipping the line on `KEParserException`), coerce the value and
store it — directly, or through a `FieldList` for indexed fields. -/
def assembleField (schema : Schema) (item : Item) (value : String)
    (field : String) (idx : Option Int) : Except PyError StepResult :=
  let field2 :=
    if (lookupStr schema field).isSome then field
    else
      let stripped := stripTrailingDigits field
      if (lookupStr schema stripped).isSome then stripped
      else field ++ "_tab"
  match get_field_type schema field2 with
  | none => Except.ok (StepResult.more item)
  | some fieldType =>
    match convertValue item fieldType value with
    | Except.error e => Except.error e
    | Except.ok tv =>
      match idx with
      | none => Except.ok (StepResult.more (setItem item field2 tv))
      | some i =>
        let cur : Except PyError (List Value) :=
          match lookupItem item field2 with
          | none => Except.ok []
          | some (Value.list l) => Except.ok l
          | some _ => Except.error PyError.typeError
        match cur with
        | Except.error e => Except.error e
        | Except.ok l =>
          match fieldListSetitem l i tv with
          | Except.error e => Except.error e
          | Except.ok l2 =>
            Except.ok (StepResult.more (setItem item field2 (Value.list l2)))

/-- One iteration of the `for line in self.file` loop of `next`
(lines 174-298). -/
def processLine (schema : Schema) (mode : Nat) (item : Item)
    (rawLine : String) : Except PyError StepResult :=
  let line := pyRstripNl rawLine
  if line = "" then Except.ok (StepResult.more item)
  else if line = "###" then emitRecord mode item
  else
    match splitEq line with
    | none =>
      -- tuple unpacking raised ValueError; the handler sees no '=' and logs
      Except.ok (StepResult.more item)
    | some (field, value) =>
      if field = "rownum" then Except.ok (StepResult.more item)
      else if field = "irn:1" then
        match pyInt value with
        | some n => Except.ok (StepResult.more (setItem item "irn" (Value.int n)))
        | none => handleValueError item line
      else
        -- value = self.encode_value(value, item): identity on decoded text
        if field.toList.any (fun c => c = ':') then
          match pySplit field ':' with
          | [base, suffix] =>
            (match pyInt suffix with
             | some n => assembleField schema item value base (some (n - 1))
             | none =>
               -- malformed index: log (which reads item['irn']) and skip
               match lookupItem item "irn" with
               | none => Except.error (PyError.keyError "irn")
               | some _ => Except.ok (StepResult.more item))
          | _ =>
            -- unpacking `field, i = field.split(':')` raised ValueError
            handleValueError item line
        else assembleField schema item value field none

/-- The whole `next` loop over the remaining lines of the stream: `ok none`
is the `StopIteration` raised when the stream is exhausted (the dangling
partial `item` is dropped); `ok (some (record, rest))` is a returned record
together with the unconsumed stream. -/
def runLines (schema : Schema) (mode : Nat) :
    Item → List String → Except PyError (Option (Item × List String))
  | _, [] => Except.ok none
  | item, l :: rest =>
    match processLine schema mode item l with
    | Except.error e => Except.error e
    | Except.ok (StepResult.more item2) => runLines schema mode item2 rest
    | Except.ok (StepResult.emit rec) => Except.ok (some (rec, rest))

/-- Embeds `KEParser.next` on a fresh record (`item = {}`, line 172). -/
def keNext (schema : Schema) (mode : Nat) (lines : List String) :
    Except PyError (Option (Item × List String)) :=
  runLines schema mode [] lines

/-! ## Concrete fixtures used by the end-to-end claims -/

/-- A schema typing `CatDisplayName` and `SecCanDisplay` as `Text` (plus the
two audit fields the terminator branch of `next` reads). -/
def cSchema : Schema :=
  [("CatDisplayName", "Text"), ("SecCanDisplay", "Text"),
   ("AdmDateModified", "Text"), ("AdmTimeModified", "Text")]

/-- The input block of the end-to-end claim, exactly as stated. -/
def cLines : List String :=
  ["irn:1=100", "CatDisplayName=Rock", "SecCanDisplay:1=Group A",
   "SecCanDisplay:2=Group B", "###"]

/-- The end-to-end input block extended with the `AdmDateModified` /
`AdmTimeModified` lines that line 194-195 of `next` requires before it can
emit any record. -/
def cLinesFull : List String :=
  ["irn:1=100", "CatDisplayName=Rock", "SecCanDisplay:1=Group A",
   "SecCanDisplay:2=Group B", "AdmDateModified=2014-01-01",
   "AdmTimeModified=12:00:00.000", "###"]

/-- The record emitted for `cLinesFull` under `FLATTEN_SINGLE`. -/
def cRecordSingle : Item :=
  [("irn", Value.int 100),
   ("CatDisplayName", Value.str "Rock"),
   ("SecCanDisplay", Value.list [Value.str "Group A", Value.str "Group B"]),
   ("AdmDateModified", Value.str "2014-01-01"),
   ("AdmTimeModified", Value.str "12:00:00.000"),
   ("ISODateInserted", Value.datetime 2014 1 1 12 0 0)]

/-- The record emitted for `cLinesFull` under `FLATTEN_ALL`. -/
def cRecordAll : Item :=
  [("irn", Value.int 100),
   ("CatDisplayName", Value.str "Rock"),
   ("SecCanDisplay", Value.str "Group A; Group B"),
   ("AdmDateModified", Value.str "2014-01-01"),
   ("AdmTimeModified", Value.str "12:00:00.000"),
   ("ISODateInserted", Value.datetime 2014 1 1 12 0 0)]

/-! ## C2: FieldList growing assignment -/

/-- C2: for a `FieldList` of length `L ≤ k`, assigning at index `k` pads
indices `L..k-1` with null, leaves every previously set element unchanged,
stores the value at `k`, and makes the final length exactly `k + 1`. -/
theorem keparser_C2 (l : List Value) (k : Nat) (v : Value)
    (h : l.length ≤ k) :
    ∃ l2, fieldListSetitem l (k : Int) v = Except.ok l2 ∧
      l2.length = k + 1 ∧
      (∀ i, i < l.length → l2[i]? = l[i]?) ∧
      (∀ i, l.length ≤ i → i < k → l2[i]? = some Value.null) ∧
      l2[k]? = some v := by
  have hc : ((l.length : Nat) : Int) ≤ (k : Int) := by exact_mod_cast h
  refine ⟨(l ++ List.replicate ((k : Int).toNat + 1 - l.length) Value.null).set
    (k : Int).toNat v, ?_, ?_, ?_, ?_, ?_⟩
  · rw [fieldListSetitem, if_pos hc]
  · rw [List.length_set, List.length_append, List.length_replicate]
    omega
  · intro i hi
    rw [List.getElem?_set_ne (by omega)]
    rw [List.getElem?_append]
    rw [if_pos hi]
  · intro i hLi hik
    rw [List.getElem?_set_ne (by omega)]
    rw [List.getElem?_append_right hLi, List.getElem?_replicate]
    rw [if_pos (by omega)]
  · rw [List.getElem?_set]
    rw [if_pos (by omega), if_pos
      (by rw [List.length_append, List.length_replicate]; omega)]

/-- C2 witness: a concrete growing assignment. -/
theorem keparser_C2_witness :
    ([Value.int 1].length ≤ 3) ∧
    (∃ l2, fieldListSetitem [Value.int 1] ((3 : Nat) : Int) (Value.str "x")
        = Except.ok l2 ∧
      l2.length = 3 + 1 ∧
      (∀ i, i < [Value.int 1].length → l2[i]? = [Value.int 1][i]?) ∧
      (∀ i, [Value.int 1].length ≤ i → i < 3 → l2[i]? = some Value.null) ∧
      l2[3]? = some (Value.str "x")) :=
  ⟨by decide, keparser_C2 [Value.int 1] 3 (Value.str "x") (by decide)⟩

/-! ## C10: totality of the byte-level line decoder -/

/-- UTF-8 round-trip on Latin-1-range code points: re-encoding always
verifies. -/
theorem decodeUtf8_utf8Encode (cps : List Nat) (h : ∀ c ∈ cps, c < 256) :
    decodeUtf8 (utf8Encode cps) = some cps := by
  induction cps with
  | nil =>
    show decodeUtf8 [] = some []
    rw [decodeUtf8.eq_def]
  | cons c cs ih =>
    have hc : c < 256 := h c (List.mem_cons_self _ _)
    have ihr : decodeUtf8 (utf8Encode cs) = some cs :=
      ih (fun b hb => h b (List.mem_cons_of_mem _ hb))
    have henc : utf8Encode (c :: cs) = utf8EncodeChar c ++ utf8Encode cs := rfl
    by_cases hsmall : c < 128
    · rw [henc, utf8EncodeChar, if_pos hsmall]
      show decodeUtf8 (c :: utf8Encode cs) = some (c :: cs)
      rw [decodeUtf8.eq_def]
      simp only [if_pos hsmall, ihr, Option.map_some']
    · have h1 : ¬ c < 128 := hsmall
      have h2 : c < 2048 := by omega
      rw [henc, utf8EncodeChar, if_neg h1, if_pos h2]
      show decodeUtf8 ((192 + c / 64) :: (128 + c % 64) :: utf8Encode cs)
        = some (c :: cs)
      have e1 : ¬ (192 + c / 64 < 128) := by omega
      have e2 : ¬ (192 + c / 64 < 194) := by omega
      have e3 : 192 + c / 64 < 224 := by omega
      have e4 : utf8Cont (128 + c % 64) = true := by
        simp only [utf8Cont, decide_eq_true_eq]
        omega
      rw [decodeUtf8.eq_def]
      simp only [if_neg e1, if_neg e2, if_pos e3]
      rw [decodeUtf8Two, if_pos e4, ihr, Option.map_some']
      have heq : (192 + c / 64 - 192) * 64 + (128 + c % 64 - 128) = c := by
        omega
      rw [heq]

/-- C10: `encode_value` is total on byte strings — the Latin-1 → UTF-8
fallback always verifies, so the branch in which both decoding attempts
fail is unreachable. -/
theorem keparser_C10 (value : List Nat) (h : ∀ b ∈ value, b < 256) :
    (decodeUtf8 (utf8Encode (latin1Decode value))).isSome = true ∧
    ∃ r, encode_value value = some r := by
  have hmain : decodeUtf8 (utf8Encode (latin1Decode value)) = some value :=
    decodeUtf8_utf8Encode value h
  refine ⟨by rw [hmain]; rfl, ?_⟩
  by_cases h1 : (decodeUtf8 (rawUnicodeEscape (latin1Decode value))).isSome
  · exact ⟨rawUnicodeEscape (latin1Decode value), by
      simp only [encode_value]
      rw [if_pos h1]⟩
  · exact ⟨utf8Encode (latin1Decode value), by
      simp only [encode_value]
      rw [if_neg h1, if_pos (by rw [hmain]; rfl)]⟩

/-- C10 witness: the byte string `[200, 65]` (a Latin-1 `È` followed by
`A`) fails the first verification and is repaired by the fallback. -/
theorem keparser_C10_witness :
    (decodeUtf8 (utf8Encode (latin1Decode [200, 65]))).isSome = true ∧
    ∃ r, encode_value [200, 65] = some r :=
  keparser_C10 [200, 65] (by decide)

/-! ## C3 / C5: the numeric coercion heuristic -/

theorem pySplit_parts_not_mem (s : String) (sep : Char) :
    ∀ p ∈ pySplit s sep, sep ∉ p.toList := by
  intro p hp
  rw [pySplit] at hp
  obtain ⟨lp, hlp, rfl⟩ := List.mem_map.mp hp
  rw [asString_toList]
  exact splitCharList_not_mem sep s.toList lp hlp

/-- On a hyphen-free input `to_type` is just the native parse: the inner
split returns a single part, so the fallback yields `none` exactly when
the parse does. -/
theorem to_type_no_hyphen {α : Type} (func : String → Option α)
    (value : String) (h : '-' ∉ value.toList) :
    to_type func value = func value := by
  rw [to_type]
  cases hf : func value with
  | some v => rfl
  | none =>
    rw [pySplit_of_not_mem h]
    rfl

/-- Theorem: `to_type` coincides with its one-level unfolding: the recursive call
operates on a split part, which never contains a hyphen. -/
theorem to_type_eq_flat {α : Type} (g : String → Option α) (w : String) :
    to_type g w = toTypeFlat g w := by
  rw [to_type, toTypeFlat]
  cases hf : g w with
  | some v => rfl
  | none =>
    match hsp : (pySplit w '-').map pyStrip with
    | [a, b] =>
      obtain ⟨p, q, hl, ha, hb⟩ := map_pyStrip_two hsp
      have hp : '-' ∉ p.toList :=
        pySplit_parts_not_mem w '-' p (by rw [hl]; exact List.mem_cons_self _ _)
      have hna : '-' ∉ a.toList := by
        rw [ha]
        intro hmem
        exact hp (pyStrip_sublist p '-' hmem)
      change (if a = b then to_type g a else none) = (if a = b then g a else none)
      by_cases hab : a = b
      · rw [if_pos hab, if_pos hab]
        exact to_type_no_hyphen g a hna
      · rw [if_neg hab, if_neg hab]
    | [] => rfl
    | [a] => rfl
    | a :: b :: c :: t => rfl

/-- C5: `to_type` (hence `to_int` and `to_float`) terminates on every
string and its recursion is at most one level deep: it coincides with the
non-recursive `toTypeFlat`, because a split part never contains a hyphen.
Every failure path returns `none` (Python `None`) rather than raising. -/
theorem keparser_C5 {α : Type} (func : String → Option α) (value : String) :
    to_type func value = toTypeFlat func value ∧
    (∀ v : String, to_int v = toTypeFlat pyInt v) ∧
    (∀ v : String, to_float v = toTypeFlat pyFloatParse v) :=
  ⟨to_type_eq_flat func value,
    fun v => by rw [to_int]; exact to_type_eq_flat pyInt v,
    fun v => by rw [to_float]; exact to_type_eq_flat pyFloatParse v⟩

/-- C3: when the native parse of an `Integer`/`Float` value fails,
`to_type` splits on hyphens, strips each part, and recursively coerces the
first part exactly when two textually identical parts result — otherwise
the value degrades to `none` (null).  In particular `"1966 - 1966"`
coerces to the integer 1966 and `"1966 - 1967"` to null. -/
theorem keparser_C3 :
    (∀ v : String, pyInt v = none →
      to_type pyInt v =
        (match h : (pySplit v '-').map pyStrip with
         | [a, b] => if a = b then to_type pyInt a else none
         | _ => none)) ∧
    to_type pyInt "1966 - 1966" = some 1966 ∧
    to_type pyInt "1966 - 1967" = none := by
  refine ⟨?_, ?_, ?_⟩
  · intro v hv
    rw [to_type.eq_def, hv]
  · rw [to_type_eq_flat pyInt "1966 - 1966"]
    rfl
  · rw [to_type_eq_flat pyInt "1966 - 1967"]
    rfl

/-- C3 witness: the general fallback equation applied at a concrete
failing parse. -/
theorem keparser_C3_witness :
    pyInt "1966 - 1966" = none ∧
    to_type pyInt "1966 - 1966" =
      (match h : (pySplit "1966 - 1966" '-').map pyStrip with
       | [a, b] => if a = b then to_type pyInt a else none
       | _ => none) :=
  ⟨by rfl, keparser_C3.1 "1966 - 1966" (by rfl)⟩

/-! ## C6: yes/no/0 normalization for text-typed fields -/

theorem string_length_zero_iff (s : String) : s.length = 0 ↔ s = "" := by
  constructor
  · intro h
    cases s with
    | mk data =>
      cases data with
      | nil => rfl
      | cons c cs => simp [string_length_eq_toList] at h
  · intro h
    rw [h]
    rfl

/-- C6: on a field whose resolved type is neither `Integer` nor `Float`
and a non-empty value, the coercion is exactly the yes/no/0 table:
boolean true iff the value is `yes`/`Yes`, boolean false iff `no`/`No`,
null iff the literal `0`, and otherwise the text passes through
unchanged. -/
theorem keparser_C6 (item : Item) (fieldType : String) (v : String)
    (hInt : fieldType ≠ "Integer") (hFloat : fieldType ≠ "Float")
    (hne : v ≠ "") :
    convertValue item fieldType v = Except.ok (coerceText v) ∧
    (coerceText v = Value.bool true ↔ (v = "yes" ∨ v = "Yes")) ∧
    (coerceText v = Value.bool false ↔ (v = "no" ∨ v = "No")) ∧
    (coerceText v = Value.null ↔ v = "0") ∧
    (v ≠ "yes" → v ≠ "Yes" → v ≠ "no" → v ≠ "No" → v ≠ "0" →
      coerceText v = Value.str v) := by
  have hlen : ¬ v.length = 0 := fun h => hne ((string_length_zero_iff v).mp h)
  refine ⟨?_, ?_, ?_, ?_, ?_⟩
  · rw [convertValue, if_neg hlen, if_neg hInt, if_neg hFloat]
  · rw [coerceText]
    split_ifs with h1 h2 h3
    · simpa using h1
    · rcases h2 with rfl | rfl <;> simp
    · subst h3
      constructor
      · intro hx; cases hx
      · intro hx
        rcases hx with hx | hx <;> exact absurd hx (by decide)
    · constructor
      · intro hx
        cases hx
      · intro hx
        exact absurd hx h1
  · rw [coerceText]
    split_ifs with h1 h2 h3
    · rcases h1 with rfl | rfl <;> simp
    · simpa using h2
    · subst h3
      constructor
      · intro hx; cases hx
      · intro hx
        rcases hx with hx | hx <;> exact absurd hx (by decide)
    · constructor
      · intro hx
        exact absurd hx (by intro hy; cases hy)
      · intro hx
        exact absurd hx h2
  · rw [coerceText]
    split_ifs with h1 h2 h3
    · rcases h1 with rfl | rfl <;> simp
    · rcases h2 with rfl | rfl <;> simp
    · subst h3
      simp
    · constructor
      · intro hx
        exact absurd hx (by intro hy; cases hy)
      · intro hx
        exact absurd (hx : v = "0") h3
  · intro n1 n2 n3 n4 n5
    rw [coerceText]
    split_ifs with h1 h2
    · rcases h1 with rfl | rfl
      · exact absurd rfl n1
      · exact absurd rfl n2
    · rcases h2 with rfl | rfl
      · exact absurd rfl n3
      · exact absurd rfl n4
    · rfl

/-- C6 witness: `"YES"` (wrong casing) on a `Text` field passes through as
text. -/
theorem keparser_C6_witness :
    convertValue [] "Text" "YES" = Except.ok (coerceText "YES") ∧
    coerceText "YES" = Value.str "YES" :=
  ⟨(keparser_C6 [] "Text" "YES" (by decide) (by decide) (by decide)).1,
   (keparser_C6 [] "Text" "YES" (by decide) (by decide) (by decide)).2.2.2.2
     (by decide) (by decide) (by decide) (by decide) (by decide)⟩

/-! ## C4: tolerated `=`-free lines versus fatal conversion errors -/

theorem splitEq_eq_none {line : String}
    (h : line.toList.any (fun c => c = '=') = false) : splitEq line = none := by
  rw [splitEq]
  simp only [h]
  rfl

/-- C4: a non-blank, non-terminator line without `=` is consumed without
raising and without touching the in-progress record; a `ValueError` on a
line that does contain `=` reaches the `except` handler, which always
re-raises (as the `ValueError`, or as the `KeyError` from printing a
missing `irn`) — shown end-to-end for the non-numeric `irn` line
`irn:1=x`. -/
theorem keparser_C4 (schema : Schema) (mode : Nat) (item : Item)
    (line : String) :
    (pyRstripNl line ≠ "" → pyRstripNl line ≠ "###" →
      (pyRstripNl line).toList.any (fun c => c = '=') = false →
      processLine schema mode item line = Except.ok (StepResult.more item)) ∧
    (line.toList.any (fun c => c = '=') = true →
      ∃ e, handleValueError item line = Except.error e) ∧
    processLine schema mode [("irn", Value.int 1)] "irn:1=x"
      = Except.error PyError.valueError := by
  refine ⟨?_, ?_, ?_⟩
  · intro hne hnt hnoeq
    rw [processLine]
    simp only [if_neg hne, if_neg hnt, splitEq_eq_none hnoeq]
  · intro heq
    rw [handleValueError, if_neg (by rw [heq]; exact fun hc => hc rfl)]
    match hirn : lookupItem item "irn" with
    | none => exact ⟨PyError.keyError "irn", rfl⟩
    | some w => exact ⟨PyError.valueError, rfl⟩
  · rfl

/-- C4 witness: a concrete `=`-free noise line is tolerated, and a concrete
`=`-bearing line reaches the re-raising handler. -/
theorem keparser_C4_witness :
    processLine [] 0 [] "noise" = Except.ok (StepResult.more []) ∧
    ∃ e, handleValueError [] "a=b" = Except.error e :=
  ⟨(keparser_C4 [] 0 [] "noise").1 (by decide) (by decide) (by decide),
   (keparser_C4 [] 0 [] "a=b").2.1 (by decide)⟩

/-! ## C7: malformed index suffixes -/

theorem toList_append (a b : String) : (a ++ b).toList = a.toList ++ b.toList :=
  String.data_append a b

theorem pyRstripNl_of_not_mem {s : String} (h : '\n' ∉ s.toList) :
    pyRstripNl s = s := by
  rw [pyRstripNl]
  match hrev : s.toList.reverse with
  | [] =>
    have : s.toList = [] := by
      have := congrArg List.reverse hrev
      simpa using this
    rw [List.dropWhile_nil, List.reverse_nil, ← this, asString_of_toList]
  | c :: cs =>
    have hcmem : c ∈ s.toList := by
      rw [← List.mem_reverse, hrev]
      exact List.mem_cons_self _ _
    have hcne : (fun x => decide (x = '\n')) c = false := by
      simp only [decide_eq_false_iff_not]
      intro hc
      exact h (hc ▸ hcmem)
    rw [List.dropWhile_cons_of_neg (by simpa using hcne), ← hrev,
      List.reverse_reverse, asString_of_toList]

theorem takeWhile_middle {p : Char → Bool} {x : Char} (cs us : List Char)
    (h : ∀ c ∈ cs, p c = true) (hx : p x = false) :
    (cs ++ x :: us).takeWhile p = cs ∧ (cs ++ x :: us).dropWhile p = x :: us := by
  induction cs with
  | nil =>
    simp only [List.nil_append, List.takeWhile_cons, List.dropWhile_cons, hx]
    exact ⟨rfl, rfl⟩
  | cons c cs ih =>
    have hc : p c = true := h c (List.mem_cons_self _ _)
    have ihr := ih (fun d hd => h d (List.mem_cons_of_mem _ hd))
    simp only [List.cons_append, List.takeWhile_cons, List.dropWhile_cons, hc,
      if_true]
    exact ⟨by rw [ihr.1], by rw [ihr.2]⟩

/-- Computes `splitEq` on a line with a marked first `=`. -/
theorem splitEq_append (field value : String) (h : '=' ∉ field.toList) :
    splitEq (field ++ "=" ++ value) = some (field, value) := by
  have hdata : (field ++ "=" ++ value).toList
      = field.toList ++ '=' :: value.toList := by
    rw [toList_append, toList_append]
    simp [List.append_assoc]
  have hmem : '=' ∈ (field ++ "=" ++ value).toList := by
    rw [hdata]
    exact List.mem_append_right _ (List.mem_cons_self _ _)
  have hany : ((field ++ "=" ++ value).toList.any (fun c => c = '=')) = true := by
    apply List.any_eq_true.mpr
    refine ⟨'=', hmem, ?_⟩
    simp
  have htw := takeWhile_middle (p := fun c => decide (c ≠ '=')) (x := '=')
    field.toList value.toList
    (fun c hc => by
      simp only [decide_eq_true_eq]
      intro hceq
      exact h (hceq ▸ hc))
    (by simp)
  rw [splitEq, if_pos hany]
  rw [hdata, htw.1, htw.2]
  rw [List.drop_one, List.tail_cons, asString_of_toList, asString_of_toList]

/-- Computes `splitCharList` on a non-separator head. -/
theorem splitCharList_cons_of_ne (sep d : Char) (l : List Char)
    (hd : ¬ d = sep) :
    splitCharList sep (d :: l)
      = (match splitCharList sep l with
         | [] => [[d]]
         | h :: t => (d :: h) :: t) := by
  simp only [splitCharList]
  rw [if_neg hd]

theorem splitCharList_append_sep (sep : Char) (cs us : List Char)
    (h : sep ∉ cs) :
    splitCharList sep (cs ++ sep :: us) = cs :: splitCharList sep us := by
  induction cs with
  | nil => simp [splitCharList]
  | cons c cs ih =>
    simp only [List.mem_cons, not_or] at h
    have ihr := ih h.2
    rw [List.cons_append,
      splitCharList_cons_of_ne sep c _ (fun hc => h.1 hc.symm), ihr]

/-- Computes `field.split(':')` on `base:suffix` with colon-free parts. -/
theorem pySplit_sandwich {base suffix : String}
    (hb : ':' ∉ base.toList) (hs : ':' ∉ suffix.toList) :
    pySplit (base ++ ":" ++ suffix) ':' = [base, suffix] := by
  have hdata : (base ++ ":" ++ suffix).toList
      = base.toList ++ ':' :: suffix.toList := by
    rw [toList_append, toList_append]
    simp [List.append_assoc]
  rw [pySplit, hdata, splitCharList_append_sep _ _ _ hb,
    splitCharList_of_not_mem hs]
  simp only [List.map_cons, List.map_nil]
  rw [asString_of_toList, asString_of_toList]

/-- C7 (amended): a line whose field token carries a colon and a
non-integer index suffix is logged and skipped without raising — provided
`irn` is already present in the record (the diagnostic prints
`item['irn']`); the in-progress record is untouched, so the field is
absent from the finalized record if no other index for it was set. -/
theorem keparser_C7 (schema : Schema) (mode : Nat) (item : Item)
    (base suffix value : String) (w : Value)
    (hIrn : lookupItem item "irn" = some w)
    (hbc : ':' ∉ base.toList) (hbe : '=' ∉ base.toList)
    (hsc : ':' ∉ suffix.toList) (hse : '=' ∉ suffix.toList)
    (hsuf : pyInt suffix = none)
    (hnl : '\n' ∉ (base ++ ":" ++ suffix ++ "=" ++ value).toList) :
    processLine schema mode item (base ++ ":" ++ suffix ++ "=" ++ value)
      = Except.ok (StepResult.more item) := by
  have hfdata : (base ++ ":" ++ suffix).toList
      = base.toList ++ ':' :: suffix.toList := by
    rw [toList_append, toList_append]
    simp [List.append_assoc]
  have hfe : '=' ∉ (base ++ ":" ++ suffix).toList := by
    rw [hfdata]
    simp only [List.mem_append, List.mem_cons, not_or]
    refine ⟨fun hc => hbe hc, ?_, fun hc => hse hc⟩
    decide
  have hline : pyRstripNl (base ++ ":" ++ suffix ++ "=" ++ value)
      = base ++ ":" ++ suffix ++ "=" ++ value :=
    pyRstripNl_of_not_mem hnl
  have hse2 : splitEq (base ++ ":" ++ suffix ++ "=" ++ value)
      = some (base ++ ":" ++ suffix, value) :=
    splitEq_append (base ++ ":" ++ suffix) value hfe
  have hmemEq : '=' ∈ (base ++ ":" ++ suffix ++ "=" ++ value).toList := by
    rw [toList_append]
    apply List.mem_append_left
    rw [toList_append]
    apply List.mem_append_right
    decide
  have hne : base ++ ":" ++ suffix ++ "=" ++ value ≠ "" := by
    intro hempty
    rw [hempty] at hmemEq
    cases hmemEq
  have hnt : base ++ ":" ++ suffix ++ "=" ++ value ≠ "###" := by
    intro heq
    rw [heq] at hmemEq
    exact absurd hmemEq (by decide)
  have hsplit : pySplit (base ++ ":" ++ suffix) ':' = [base, suffix] :=
    pySplit_sandwich hbc hsc
  have hrownum : base ++ ":" ++ suffix ≠ "rownum" := by
    intro heq
    rw [heq] at hsplit
    have hr : pySplit "rownum" ':' = ["rownum"] := by rfl
    rw [hr] at hsplit
    cases hsplit
  have hirn1 : base ++ ":" ++ suffix ≠ "irn:1" := by
    intro heq
    rw [heq] at hsplit
    have hr : pySplit "irn:1" ':' = ["irn", "1"] := by rfl
    rw [hr] at hsplit
    have hs1 : suffix = "1" := by
      injection hsplit with h1 h2
      injection h2 with h3 h4
      exact h3.symm
    rw [hs1] at hsuf
    cases hsuf
  have hcolon : ((base ++ ":" ++ suffix).toList.any (fun c => c = ':')) = true := by
    apply List.any_eq_true.mpr
    refine ⟨':', ?_, ?_⟩
    · rw [hfdata]
      exact List.mem_append_right _ (List.mem_cons_self _ _)
    · simp
  simp only [processLine, hline, if_neg hne, if_neg hnt, hse2]
  simp only [if_neg hrownum, if_neg hirn1, hcolon, if_true]
  simp only [hsplit, hsuf, hIrn]

/-- C7 counterexample (claim as stated): when `irn` has not been parsed yet,
the malformed-index diagnostic itself raises a `KeyError` instead of
skipping the line. -/
theorem keparser_C7_counterexample :
    processLine cSchema FLATTEN_SINGLE [] "SecCanDisplay:=Group X"
      = Except.error (PyError.keyError "irn") := rfl

/-- C7 witness: the empty-suffix line `SecCanDisplay:=Group X` is skipped
once `irn` is present. -/
theorem keparser_C7_witness :
    processLine [] 5 [("irn", Value.int 5)]
      ("SecCanDisplay" ++ ":" ++ "" ++ "=" ++ "Group X")
      = Except.ok (StepResult.more [("irn", Value.int 5)]) :=
  keparser_C7 [] 5 [("irn", Value.int 5)] "SecCanDisplay" "" "Group X"
    (Value.int 5) rfl (by decide) (by decide) (by decide) (by decide)
    (by decide) (by decide)

/-! ## C8: end of stream without a terminator -/

theorem handleValueError_not_emit (item : Item) (line : String) :
    ∀ rec, handleValueError item line ≠ Except.ok (StepResult.emit rec) := by
  intro rec h
  rw [handleValueError] at h
  split at h
  · injection h with h2
    cases h2
  · split at h
    · cases h
    · cases h

theorem assembleField_not_emit (schema : Schema) (item : Item)
    (value field : String) (idx : Option Int) :
    ∀ rec, assembleField schema item value field idx
      ≠ Except.ok (StepResult.emit rec) := by
  intro rec h
  simp only [assembleField] at h
  repeat' split at h
  all_goals cases h

/-- Lemma: `processLine` can only emit a record on a `###` terminator line. -/
theorem processLine_not_emit (schema : Schema) (mode : Nat) (item : Item)
    (line : String) (hnt : pyRstripNl line ≠ "###") :
    ∀ rec, processLine schema mode item line
      ≠ Except.ok (StepResult.emit rec) := by
  intro rec h
  simp only [processLine] at h
  repeat' split at h
  all_goals try (cases h)
  all_goals try (exact handleValueError_not_emit item _ rec h)
  all_goals exact assembleField_not_emit schema item _ _ _ rec h

theorem runLines_no_record (schema : Schema) (mode : Nat) :
    ∀ (lines : List String) (item : Item),
    (∀ l ∈ lines, pyRstripNl l ≠ "###") →
    (runLines schema mode item lines = Except.ok none ∨
      ∃ e, runLines schema mode item lines = Except.error e) := by
  intro lines
  induction lines with
  | nil =>
    intro item _
    left
    rfl
  | cons l rest ih =>
    intro item hterm
    have hhead : pyRstripNl l ≠ "###" := hterm l (List.mem_cons_self _ _)
    have htail : ∀ x ∈ rest, pyRstripNl x ≠ "###" :=
      fun x hx => hterm x (List.mem_cons_of_mem _ hx)
    show (match processLine schema mode item l with
      | Except.error e => Except.error e
      | Except.ok (StepResult.more item2) => runLines schema mode item2 rest
      | Except.ok (StepResult.emit rec) => Except.ok (some (rec, rest)))
        = Except.ok none ∨ ∃ e, (match processLine schema mode item l with
      | Except.error e => Except.error e
      | Except.ok (StepResult.more item2) => runLines schema mode item2 rest
      | Except.ok (StepResult.emit rec) => Except.ok (some (rec, rest)))
        = Except.error e
    cases hp : processLine schema mode item l with
    | error e =>
      right
      exact ⟨e, rfl⟩
    | ok st =>
      cases st with
      | more item2 => exact ih item2 htail
      | emit rec => exact absurd hp (processLine_not_emit schema mode item l hhead rec)

/-- C8: when the input ends before a terminator closes the final block,
iteration never yields a record — it either signals `StopIteration`
(`ok none`) with the dangling partial record discarded, or propagates an
error raised by a trailing line; concretely, a two-line unterminated block
produces `StopIteration` and no record. -/
theorem keparser_C8 (schema : Schema) (mode : Nat) (item : Item)
    (lines : List String)
    (hterm : ∀ l ∈ lines, pyRstripNl l ≠ "###") :
    (runLines schema mode item lines = Except.ok none ∨
      ∃ e, runLines schema mode item lines = Except.error e) ∧
    keNext cSchema FLATTEN_SINGLE ["irn:1=100", "CatDisplayName=Rock"]
      = Except.ok none :=
  ⟨runLines_no_record schema mode lines item hterm, rfl⟩

/-- C8 witness: a concrete unterminated single-line stream. -/
theorem keparser_C8_witness :
    (runLines cSchema FLATTEN_SINGLE [] ["irn:1=100"] = Except.ok none ∨
      ∃ e, runLines cSchema FLATTEN_SINGLE [] ["irn:1=100"]
        = Except.error e) ∧
    keNext cSchema FLATTEN_SINGLE ["irn:1=100", "CatDisplayName=Rock"]
      = Except.ok none :=
  keparser_C8 cSchema FLATTEN_SINGLE [] ["irn:1=100"] (by decide)

/-! ## C9: the shape of field names in emitted records -/

/-- The key predicate the claim asserts: a schema-recognized name (directly
or after numeral stripping), or a name carrying the `_tab` fallback
suffix. -/
def claimKeyOk (schema : Schema) (k : String) : Bool :=
  (lookupStr schema k).isSome ∨ (lookupStr schema (stripTrailingDigits k)).isSome
    ∨ k.endsWith "_tab"

/-- The key invariant the code actually maintains: every key of an emitted
record is `irn`, the derived `ISODateInserted`, or a name the type
resolver recognises (override table or schema columns) — such a name got
there as the raw token, its numeral-stripped form, or the token with
`_tab` appended. -/
def emittedKeyOk (schema : Schema) (k : String) : Bool :=
  k = "irn" ∨ k = "ISODateInserted" ∨ (get_field_type schema k).isSome

/-- The record of a step result (the in-progress record, or the emitted
one). -/
def stItem : StepResult → Item
  | StepResult.more item => item
  | StepResult.emit rec => rec

theorem setItem_mem {item : Item} {k : String} {v : Value} {p : String × Value}
    (h : p ∈ setItem item k v) : p ∈ item ∨ p = (k, v) := by
  rw [setItem] at h
  split at h
  · obtain ⟨q, hq, hfq⟩ := List.mem_map.mp h
    by_cases hk : q.1 = k
    · right
      rw [← hfq, if_pos hk]
    · left
      rw [← hfq, if_neg hk]
      exact hq
  · rcases List.mem_append.mp h with hq | hq
    · left
      exact hq
    · right
      simpa using hq

theorem flatten_mem {mode : Nat} {item : Item} {p : String × Value}
    (h : p ∈ flatten mode item) : ∃ q ∈ item, p.1 = q.1 := by
  rw [flatten] at h
  obtain ⟨q, hq, hfq⟩ := List.mem_map.mp h
  exact ⟨q, hq, by rw [← hfq]⟩

theorem ifFlatten_mem {mode : Nat} {item : Item} {p : String × Value}
    (h : p ∈ (if mode ≠ FLATTEN_NONE then flatten mode item else item)) :
    ∃ q ∈ item, p.1 = q.1 := by
  split at h
  · exact flatten_mem h
  · exact ⟨p, h, rfl⟩

theorem handleValueError_more {item : Item} {line : String} {st : StepResult}
    (h : handleValueError item line = Except.ok st) :
    st = StepResult.more item := by
  rw [handleValueError] at h
  repeat' split at h
  all_goals try (cases h)
  all_goals rfl

theorem emitRecord_keys {mode : Nat} {item : Item} {st : StepResult}
    (h : emitRecord mode item = Except.ok st) :
    ∃ rec, st = StepResult.emit rec ∧
      ∀ p ∈ rec, (∃ q ∈ item, p.1 = q.1) ∨ p.1 = "ISODateInserted" := by
  simp only [emitRecord] at h
  repeat' split at h
  all_goals try (cases h)
  all_goals
    (refine ⟨_, rfl, ?_⟩
     intro p hp
     rcases setItem_mem hp with hm | hpk
     · first
         | exact Or.inl (flatten_mem hm)
         | exact Or.inl ⟨p, hm, rfl⟩
     · right
       rw [hpk])

theorem assembleField_keys {schema : Schema} {item : Item}
    {value field : String} {idx : Option Int} {st : StepResult}
    (h : assembleField schema item value field idx = Except.ok st) :
    ∃ item2, st = StepResult.more item2 ∧
      ∀ p ∈ item2, p ∈ item ∨ emittedKeyOk schema p.1 = true := by
  simp only [assembleField] at h
  repeat' split at h
  all_goals try (cases h)
  all_goals
    (refine ⟨_, rfl, ?_⟩
     intro p hp
     first
       | exact Or.inl hp
       | (rcases setItem_mem hp with hm | hpk
          · exact Or.inl hm
          · right
            rw [hpk]
            simp_all [emittedKeyOk]))

theorem processLine_keys {schema : Schema} {mode : Nat} {item : Item}
    {line : String} {st : StepResult}
    (h : processLine schema mode item line = Except.ok st) :
    ∀ p ∈ stItem st, (∃ q ∈ item, p.1 = q.1)
      ∨ emittedKeyOk schema p.1 = true := by
  simp only [processLine] at h
  repeat' split at h
  all_goals try (cases h)
  all_goals try
    (obtain ⟨item2, hst, hprop⟩ := assembleField_keys h
     subst hst
     intro p hp
     rcases hprop p hp with hm | hok
     · exact Or.inl ⟨p, hm, rfl⟩
     · exact Or.inr hok)
  all_goals try
    (obtain ⟨rec, hst, hprop⟩ := emitRecord_keys h
     subst hst
     intro p hp
     rcases hprop p hp with hm | hk
     · exact Or.inl hm
     · right
       rw [emittedKeyOk, hk]
       simp)
  all_goals try
    (have hst := handleValueError_more h
     subst hst
     intro p hp
     exact Or.inl ⟨p, hp, rfl⟩)
  all_goals
    (intro p hp
     first
       | exact Or.inl ⟨p, hp, rfl⟩
       | (rcases setItem_mem hp with hm | hpk
          · exact Or.inl ⟨p, hm, rfl⟩
          · right
            rw [hpk]
            simp [emittedKeyOk]))

theorem runLines_keys (schema : Schema) (mode : Nat) :
    ∀ (lines : List String) (item rec : Item) (rest : List String),
    runLines schema mode item lines = Except.ok (some (rec, rest)) →
    (∀ p ∈ item, emittedKeyOk schema p.1 = true) →
    ∀ p ∈ rec, emittedKeyOk schema p.1 = true := by
  intro lines
  induction lines with
  | nil =>
    intro item rec rest h _
    injection h with h2
    cases h2
  | cons l rest2 ih =>
    intro item rec rest h hinv
    cases hp : processLine schema mode item l with
    | error e =>
      have h' : (Except.error e : Except PyError (Option (Item × List String)))
          = Except.ok (some (rec, rest)) := by
        rw [← h]
        show Except.error e = (match processLine schema mode item l with
          | Except.error e => Except.error e
          | Except.ok (StepResult.more item2) => runLines schema mode item2 rest2
          | Except.ok (StepResult.emit r) => Except.ok (some (r, rest2)))
        rw [hp]
      cases h'
    | ok st =>
      have hkeys := processLine_keys hp
      cases st with
      | more item2 =>
        have h' : runLines schema mode item2 rest2
            = Except.ok (some (rec, rest)) := by
          rw [← h]
          show runLines schema mode item2 rest2
            = (match processLine schema mode item l with
              | Except.error e => Except.error e
              | Except.ok (StepResult.more item2) => runLines schema mode item2 rest2
              | Except.ok (StepResult.emit r) => Except.ok (some (r, rest2)))
          rw [hp]
        refine ih item2 rec rest h' ?_
        intro p hp2
        rcases hkeys p hp2 with ⟨q, hq, hqeq⟩ | hok
        · rw [hqeq]
          exact hinv q hq
        · exact hok
      | emit rec2 =>
        have h' : (Except.ok (some (rec2, rest2))
            : Except PyError (Option (Item × List String)))
            = Except.ok (some (rec, rest)) := by
          rw [← h]
          show Except.ok (some (rec2, rest2))
            = (match processLine schema mode item l with
              | Except.error e => Except.error e
              | Except.ok (StepResult.more item2) => runLines schema mode item2 rest2
              | Except.ok (StepResult.emit r) => Except.ok (some (r, rest2)))
          rw [hp]
        injection h' with h3
        injection h3 with h4
        injection h4 with h5 h6
        subst h5
        intro p hp2
        rcases hkeys p hp2 with ⟨q, hq, hqeq⟩ | hok
        · rw [hqeq]
          exact hinv q hq
        · exact hok

/-- C9 (amended): every field name in an emitted record is `irn`, the
derived `ISODateInserted`, or a name the type resolver recognises via the
override table or the schema's columns (reached as the raw token, its
numeral-stripped form, or the token with `_tab` appended) — never a raw
unresolved token. -/
theorem keparser_C9 (schema : Schema) (mode : Nat) (lines : List String)
    (rec : Item) (rest : List String)
    (h : keNext schema mode lines = Except.ok (some (rec, rest))) :
    ∀ p ∈ rec, emittedKeyOk schema p.1 = true :=
  runLines_keys schema mode lines [] rec rest h (fun p hp => absurd hp (by simp))

/-- C9 counterexample (claim as stated): the emitted record for the
end-to-end block contains the key `irn`, which is neither
schema-recognized (directly or numeral-stripped) nor `_tab`-suffixed. -/
theorem keparser_C9_counterexample :
    keNext cSchema FLATTEN_SINGLE cLinesFull
      = Except.ok (some (cRecordSingle, [])) ∧
    "irn" ∈ cRecordSingle.map Prod.fst ∧
    claimKeyOk cSchema "irn" = false :=
  ⟨rfl, by decide, by decide⟩

/-- C9 witness: the amended invariant checked on the concrete emitted
record. -/
theorem keparser_C9_witness :
    keNext cSchema FLATTEN_SINGLE cLinesFull
      = Except.ok (some (cRecordSingle, [])) ∧
    ∀ p ∈ cRecordSingle, emittedKeyOk cSchema p.1 = true :=
  ⟨rfl, keparser_C9 cSchema FLATTEN_SINGLE cLinesFull cRecordSingle [] rfl⟩

/-! ## C1: the end-to-end block -/

/-- C1 counterexample (claim as stated): on exactly the claimed input
lines, `next` raises a `KeyError` for `AdmDateModified` while synthesising
`ISODateInserted` at the terminator, so no record is yielded at all. -/
theorem keparser_C1_counterexample :
    keNext cSchema FLATTEN_SINGLE cLines
      = Except.error (PyError.keyError "AdmDateModified") := rfl

/-- C1 (amended): with `AdmDateModified`/`AdmTimeModified` lines added so
the terminator branch can synthesise `ISODateInserted`, flatten mode
`Single` yields the record with `irn = 100`, `CatDisplayName = "Rock"`
and `SecCanDisplay` kept as the two-element sequence
`["Group A", "Group B"]` (plus the two audit fields and the derived
date); mode `All` yields the same record except
`SecCanDisplay = "Group A; Group B"`. -/
theorem keparser_C1 :
    keNext cSchema FLATTEN_SINGLE cLinesFull
      = Except.ok (some (cRecordSingle, [])) ∧
    keNext cSchema FLATTEN_ALL cLinesFull
      = Except.ok (some (cRecordAll, [])) :=
  ⟨rfl, rfl⟩
